import Mathlib

/-!
Verification of the RAG notebook pipeline (`RAG2.ipynb`).

Text is modelled as `List Char`.  The notebook delegates chunking to the
`RecursiveCharacterTextSplitter` of an external library and retrieval to an
external vector database; those components are modelled from the
specification's contracts.  The prompt construction, the interactive loop,
the environment-variable handling and the document rebuilding are translated
directly from the notebook's own code.
-/

/-- Chunk size configured in the notebook (`chunk_size=85`). -/
def chunk_size : Nat := 85

/-- Overlap configured in the notebook (`chunk_overlap=20`). -/
def chunk_overlap : Nat := 20

/-- Separator priority list configured in the notebook:
sentence, paragraph, word. -/
def separators : List (List Char) :=
  [['.', ' '], ['\n', '\n'], [' ']]

/-- All end positions of occurrences of `sep` inside the window `w`
(position just after the separator). -/
def sepEnds (sep w : List Char) : List Nat :=
  (List.range (w.length + 1)).filterMap fun p =>
    if (w.drop p).take sep.length = sep then some (p + sep.length) else none

/-- Modelled from the spec: the splitter picks the first separator in priority
order that yields a cut inside the window that makes progress past the
overlap; it cuts after the last such occurrence and otherwise falls back to a
hard character cut at the full chunk size. -/
def firstFit (w : List Char) : List (List Char) → Nat
  | [] => chunk_size
  | sep :: rest =>
    match ((sepEnds sep w).filter fun c => decide (chunk_overlap < c)).max? with
    | some c => c
    | none => firstFit w rest

/-- Cut position for the next chunk of `s`. -/
def chooseCut (s : List Char) : Nat :=
  firstFit (s.take chunk_size) separators

/-- Modelled from the spec: the chunker (implemented in the external
`langchain` library, absent from this repository) produces a sequence of
chunks; each chunk is at most `chunk_size` characters, consecutive chunks
overlap by `chunk_overlap` characters, cuts happen preferentially at a
separator and otherwise at a hard character boundary.  The `fuel` argument
makes the recursion structural; `chunkText` supplies enough fuel. -/
def chunkTextAux : Nat → List Char → List (List Char)
  | 0, s => [s]
  | fuel + 1, s =>
    if s.length ≤ chunk_size then [s]
    else s.take (chooseCut s) :: chunkTextAux fuel (s.drop (chooseCut s - chunk_overlap))

/-- Split a document text into overlapping chunks. -/
def chunkText (s : List Char) : List (List Char) := chunkTextAux s.length s

/-- Concatenate chunks after removing, from every chunk but the first, the
overlap region shared with its predecessor. -/
def reconstruct (chunks : List (List Char)) : List Char :=
  match chunks with
  | [] => []
  | c :: cs => c ++ (cs.map fun d => d.drop chunk_overlap).flatten

/-- Relation between consecutive chunks: whenever the successor is longer
than the overlap, the predecessor's last `chunk_overlap` characters equal the
successor's first `chunk_overlap` characters. -/
def OverlapRel (a b : List Char) : Prop :=
  chunk_overlap < b.length → a.drop (a.length - chunk_overlap) = b.take chunk_overlap

/-- A record stored in the vector index: the chunk text and its embedding
vector.  Modelled from the spec's `EmbeddingRecord`. -/
structure EmbeddingRecord where
  text : List Char
  vector : List ℚ
deriving DecidableEq

/-- Squared Euclidean distance between two vectors. -/
def dist2 (v w : List ℚ) : ℚ :=
  (List.zipWith (fun a b => (a - b) ^ 2) v w).sum

/-- Boolean comparison used for ranking: `a` is at most as far from the
query vector as `b`. -/
def distLE (q : List ℚ) (a b : EmbeddingRecord) : Bool :=
  decide (dist2 q a.vector ≤ dist2 q b.vector)

/-- Modelled from the spec: the vector index's `query(vector, k)` operation
(implemented by the external vector database, absent from this repository)
ranks the stored records by ascending distance to the query vector and
returns the front `k` of the ranking. -/
def similaritySearch (records : List EmbeddingRecord) (q : List ℚ) (k : Nat) :
    List EmbeddingRecord :=
  (records.mergeSort (distLE q)).take k

/-- The state of the vector store: its unordered backing list of records. -/
structure VectorStore where
  records : List EmbeddingRecord

/-- Modelled from the spec: a retrieval invocation returns the retrieved
records together with the store state after the call; retrieval reads but
does not mutate the backing store. -/
def similaritySearchOp (st : VectorStore) (q : List ℚ) (k : Nat) :
    List EmbeddingRecord × VectorStore :=
  (similaritySearch st.records q k, st)

/-- Lowercasing of an input line (Python `str.lower` on the ASCII range). -/
def lowerLine (s : List Char) : List Char := s.map Char.toLower

/-- The literal token that terminates the interactive loop. -/
def exitToken : List Char := ['e', 'x', 'i', 't']

/-- Dispatch decision of the interactive loop for one input line. -/
inductive LoopAction where
  | exitLoop
  | ask (question : List Char)
deriving DecidableEq

/-- Translated from the notebook's read loop: if the lowercased line equals
the exit token the loop breaks, otherwise the line is asked as a question. -/
def loopStep (line : List Char) : LoopAction :=
  if lowerLine line = exitToken then LoopAction.exitLoop
  else LoopAction.ask line

/-- The blank-line separator joining retrieved chunk texts. -/
def blankSep : List Char := ['\n', '\n']

/-- Python string `join` with the blank-line separator, translated from the
notebook's join over `doc.page_content` of the retrieved documents. -/
def joinContext : List (List Char) → List Char
  | [] => []
  | [t] => t
  | t :: ts => t ++ blankSep ++ joinContext ts

/-- Fixed template text before the context, from the notebook's prompt. -/
def promptHead : List Char :=
  "\n    You are an AI assistant. Answer the question using the retrieved context below.\n    \n    Context:\n    ".toList

/-- Fixed template text between the context and the question. -/
def promptMid : List Char :=
  "\n    \n    Question: ".toList

/-- Fixed template text after the question. -/
def promptTail : List Char :=
  "\n    \n    Answer:\n    ".toList

/-- The prompt built by `ask_question`: the fixed template around the
joined context and the query, with no length or token-budget check. -/
def askQuestionPrompt (retrieved : List (List Char)) (query : List Char) :
    List Char :=
  promptHead ++ joinContext retrieved ++ promptMid ++ query ++ promptTail

/-- Process environment, restricted to the one variable the notebook uses. -/
structure Env where
  openaiApiKey : String
deriving DecidableEq

/-- Translated from the notebook's assignment of the empty placeholder
string to the credential environment variable before any API call. -/
def assignApiKey (env : Env) : Env := { env with openaiApiKey := "" }

/-- Translated from the notebook's read of the credential variable. -/
def getApiKey (env : Env) : String := env.openaiApiKey

/-- Outcome of one iteration of the interactive loop. -/
inductive TurnResult where
  | exited
  | answered (response : List Char)
deriving DecidableEq

/-- `ask_question`: first the retrieval, whose remote embedding call can
fail, then the prompt build, then the remote chat-completion call, which can
also fail; neither call has a handler or a retry around it, so the first
error is the function's result. -/
def askQuestion (retrieve : List Char → Except String (List (List Char)))
    (complete : List Char → Except String (List Char)) (q : List Char) :
    Except String (List Char) :=
  match retrieve q with
  | Except.error e => Except.error e
  | Except.ok docs => complete (askQuestionPrompt docs q)

/-- One iteration of the read loop, with the fallibility of both remote
calls made explicit; no handler surrounds the question-answering path. -/
def loopTurn (retrieve : List Char → Except String (List (List Char)))
    (complete : List Char → Except String (List Char)) (line : List Char) :
    Except String TurnResult :=
  match loopStep line with
  | LoopAction.exitLoop => Except.ok TurnResult.exited
  | LoopAction.ask q => (askQuestion retrieve complete q).map TurnResult.answered

/-- A loader document: page text plus the metadata the PDF loader attaches
(source path, page number, ...). -/
structure LCDocument where
  page_content : List Char
  metadata : List (String × String)
deriving DecidableEq

/-- Translated from the notebook's comprehension rebuilding the documents
before embedding: each new document keeps only the chunk's page text; the
constructor's default metadata is empty. -/
def rebuildDocuments (chunks : List LCDocument) : List LCDocument :=
  chunks.map fun c => { page_content := c.page_content, metadata := [] }

theorem mem_sepEnds_le {sep w : List Char} {c : Nat} (h : c ∈ sepEnds sep w) :
    c ≤ w.length := by
  unfold sepEnds at h
  simp only [List.mem_filterMap, List.mem_range] at h
  obtain ⟨p, hp, hif⟩ := h
  split at hif
  · rename_i htake
    have hlen := congrArg List.length htake
    simp only [List.length_take, List.length_drop] at hlen
    simp only [Option.some.injEq] at hif
    omega
  · exact absurd hif (by simp)

theorem firstFit_bounds (w : List Char) (seps : List (List Char)) :
    firstFit w seps = chunk_size ∨
      (chunk_overlap < firstFit w seps ∧ firstFit w seps ≤ w.length) := by
  induction seps with
  | nil => exact Or.inl rfl
  | cons sep rest ih =>
    unfold firstFit
    cases hmax : ((sepEnds sep w).filter fun c => decide (chunk_overlap < c)).max? with
    | none => simpa [hmax] using ih
    | some c =>
      have hmem : c ∈ (sepEnds sep w).filter fun c => decide (chunk_overlap < c) :=
        List.max?_mem (fun a b => by omega) hmax
      rw [List.mem_filter] at hmem
      refine Or.inr ⟨by simpa using hmem.2, mem_sepEnds_le hmem.1⟩

theorem chooseCut_bounds {s : List Char} (h : chunk_size < s.length) :
    chunk_overlap < chooseCut s ∧ chooseCut s ≤ chunk_size ∧ chooseCut s ≤ s.length := by
  have hw : (s.take chunk_size).length = chunk_size := by
    simp [List.length_take]; omega
  rcases firstFit_bounds (s.take chunk_size) separators with hc | ⟨h1, h2⟩
  · unfold chooseCut
    rw [hc]
    refine ⟨by norm_num [chunk_overlap, chunk_size], le_refl _, by omega⟩
  · unfold chooseCut
    rw [hw] at h2
    exact ⟨h1, h2, by omega⟩

theorem chunkTextAux_flatten_drop (fuel : Nat) (s : List Char) :
    ((chunkTextAux fuel s).map fun c => c.drop chunk_overlap).flatten
      = s.drop chunk_overlap := by
  induction fuel generalizing s with
  | zero => simp [chunkTextAux]
  | succ n ih =>
    unfold chunkTextAux
    split
    · simp
    · rename_i hlong
      have hb := chooseCut_bounds (s := s) (by omega)
      set c := chooseCut s with hc
      simp only [List.map_cons, List.flatten_cons, ih]
      have h1 : (chunk_overlap + (c - chunk_overlap)) = c := by omega
      have h2 : (c - chunk_overlap) + chunk_overlap = c := by omega
      calc (s.take c).drop chunk_overlap ++ (s.drop (c - chunk_overlap)).drop chunk_overlap
          = (s.take c).drop chunk_overlap ++ s.drop c := by
            rw [List.drop_drop, h2]
        _ = ((s.drop chunk_overlap).take (c - chunk_overlap))
              ++ ((s.drop chunk_overlap).drop (c - chunk_overlap)) := by
            rw [List.take_drop, List.drop_drop, h1]
        _ = s.drop chunk_overlap := List.take_append_drop _ _

theorem reconstruct_chunkTextAux (fuel : Nat) (s : List Char) :
    reconstruct (chunkTextAux fuel s) = s := by
  cases fuel with
  | zero => simp [chunkTextAux, reconstruct]
  | succ n =>
    unfold chunkTextAux
    split
    · simp [reconstruct]
    · rename_i hlong
      have hb := chooseCut_bounds (s := s) (by omega)
      simp only [reconstruct, chunkTextAux_flatten_drop]
      rw [List.drop_drop]
      have : (chooseCut s - chunk_overlap) + chunk_overlap = chooseCut s := by omega
      rw [this, List.take_append_drop]

/-- Claim C1: for every document text, concatenating the chunks produced by
the chunker, with each chunk's overlap region with its predecessor removed,
yields exactly the original document text. -/
theorem chunker_reconstructs (s : List Char) :
    reconstruct (chunkText s) = s :=
  reconstruct_chunkTextAux s.length s

theorem chunkTextAux_length_le (fuel : Nat) (s : List Char) (hf : s.length ≤ fuel) :
    ∀ c ∈ chunkTextAux fuel s, c.length ≤ chunk_size := by
  induction fuel generalizing s with
  | zero =>
    intro c hc
    simp only [chunkTextAux, List.mem_singleton] at hc
    subst hc
    have hcs : chunk_size = 85 := rfl
    omega
  | succ n ih =>
    intro c hc
    unfold chunkTextAux at hc
    split at hc
    · rename_i hle
      simp only [List.mem_singleton] at hc
      subst hc
      exact hle
    · rename_i hlong
      have hb := chooseCut_bounds (s := s) (by omega)
      simp only [List.mem_cons] at hc
      rcases hc with rfl | hc
      · simp only [List.length_take]
        omega
      · refine ih (s.drop (chooseCut s - chunk_overlap)) ?_ c hc
        simp only [List.length_drop]
        have hov : chunk_overlap = 20 := rfl
        omega

/-- Claim C2: every chunk produced by the chunker, except possibly the last
one of the sequence, has length at most the configured chunk size. -/
theorem chunk_length_le (s : List Char) (i : Nat)
    (h : i + 1 < (chunkText s).length) :
    ((chunkText s).get ⟨i, by omega⟩).length ≤ chunk_size := by
  have h' : ∀ c ∈ chunkText s, c.length ≤ chunk_size :=
    chunkTextAux_length_le s.length s (le_refl _)
  exact h' _ (List.get_mem (chunkText s) i (by omega))

/-- Witness for claim C2 on a concrete 100-character document. -/
theorem chunk_length_le_witness :
    0 + 1 < (chunkText (List.replicate 100 'a')).length ∧
      ((chunkText (List.replicate 100 'a')).get ⟨0, by decide⟩).length ≤ chunk_size :=
  ⟨by decide, chunk_length_le (List.replicate 100 'a') 0 (by decide)⟩

theorem chunkTextAux_head_take (fuel : Nat) (t : List Char) :
    ∃ h, (chunkTextAux fuel t).head? = some h ∧
      h.take chunk_overlap = t.take chunk_overlap := by
  cases fuel with
  | zero => exact ⟨t, rfl, rfl⟩
  | succ n =>
    unfold chunkTextAux
    split
    · exact ⟨t, rfl, rfl⟩
    · rename_i hlong
      have hb := chooseCut_bounds (s := t) (by omega)
      refine ⟨t.take (chooseCut t), rfl, ?_⟩
      rw [List.take_take]
      congr 1
      omega

theorem chunkTextAux_chain (fuel : Nat) (s : List Char) :
    List.Chain' OverlapRel (chunkTextAux fuel s) := by
  induction fuel generalizing s with
  | zero => simp [chunkTextAux]
  | succ n ih =>
    unfold chunkTextAux
    split
    · simp
    · rename_i hlong
      have hb := chooseCut_bounds (s := s) (by omega)
      rw [List.chain'_cons']
      refine ⟨?_, ih _⟩
      intro b hmem
      obtain ⟨hd, hhd, htake⟩ :=
        chunkTextAux_head_take n (s.drop (chooseCut s - chunk_overlap))
      rw [hhd, Option.mem_some_iff] at hmem
      subst hmem
      intro _
      rw [htake]
      have hlentake : (s.take (chooseCut s)).length = chooseCut s := by
        simp only [List.length_take]
        omega
      have hco : chooseCut s - chunk_overlap + chunk_overlap = chooseCut s := by
        omega
      rw [hlentake, List.take_drop, hco]

/-- Claim C3: whenever chunk `i` and chunk `i+1` both have length greater
than the configured overlap, the last `chunk_overlap` characters of chunk `i`
equal the first `chunk_overlap` characters of chunk `i+1`. -/
theorem chunk_overlap_eq (s : List Char) (i : Nat)
    (hi : i < (chunkText s).length) (hj : i + 1 < (chunkText s).length)
    (h1 : chunk_overlap < ((chunkText s).get ⟨i, hi⟩).length)
    (h2 : chunk_overlap < ((chunkText s).get ⟨i + 1, hj⟩).length) :
    ((chunkText s).get ⟨i, hi⟩).drop
        (((chunkText s).get ⟨i, hi⟩).length - chunk_overlap)
      = ((chunkText s).get ⟨i + 1, hj⟩).take chunk_overlap := by
  have hchain : List.Chain' OverlapRel (chunkText s) := chunkTextAux_chain s.length s
  rw [List.chain'_iff_get] at hchain
  exact hchain i (by omega) h2

/-- Witness for claim C3 on a concrete 100-character document. -/
theorem chunk_overlap_eq_witness :
    chunk_overlap < ((chunkText (List.replicate 100 'a')).get ⟨0, by decide⟩).length ∧
    chunk_overlap < ((chunkText (List.replicate 100 'a')).get ⟨1, by decide⟩).length ∧
    ((chunkText (List.replicate 100 'a')).get ⟨0, by decide⟩).drop
        (((chunkText (List.replicate 100 'a')).get ⟨0, by decide⟩).length - chunk_overlap)
      = ((chunkText (List.replicate 100 'a')).get ⟨1, by decide⟩).take chunk_overlap :=
  ⟨by decide, by decide,
    chunk_overlap_eq (List.replicate 100 'a') 0 (by decide) (by decide)
      (by decide) (by decide)⟩

/-- Counterexample to claim C4: on an index holding no records, retrieval
with `k = 3` returns fewer than `k` records. -/
theorem similaritySearch_short_counterexample :
    (similaritySearch [] [(0 : ℚ)] 3).length ≠ 3 := by
  simp [similaritySearch]

/-- Claim C4 (amended): retrieval returns the records sorted by ascending
distance to the query vector, and the number returned is the requested `k`
capped by the number of stored records; in particular it equals `k` whenever
the index holds at least `k` records. -/
theorem similaritySearch_sorted_length (records : List EmbeddingRecord)
    (q : List ℚ) (k : Nat) :
    (similaritySearch records q k).length = min k records.length ∧
      List.Pairwise (fun a b => dist2 q a.vector ≤ dist2 q b.vector)
        (similaritySearch records q k) := by
  constructor
  · simp [similaritySearch]
  · have hsorted : List.Pairwise (fun a b => distLE q a b = true)
        (records.mergeSort (distLE q)) :=
      List.sorted_mergeSort
        (fun a b c hab hbc => by
          simp only [distLE, decide_eq_true_eq] at hab hbc ⊢
          exact le_trans hab hbc)
        (fun a b => by
          simp only [distLE, Bool.or_eq_true, decide_eq_true_eq]
          exact le_total _ _)
        records
    have htake := hsorted.sublist (List.take_sublist k _)
    exact htake.imp (fun h => by simpa [distLE] using h)

/-- Claim C5: for a fixed store and a fixed query vector, retrieval does not
mutate the store, and a repeated invocation returns the same ordered record
sequence. -/
theorem similaritySearchOp_deterministic (st : VectorStore) (q : List ℚ)
    (k : Nat) :
    (similaritySearchOp st q k).2 = st ∧
      (similaritySearchOp ((similaritySearchOp st q k).2) q k).1
        = (similaritySearchOp st q k).1 :=
  ⟨rfl, rfl⟩

/-- Claim C6: the loop exits exactly on a line whose lowercased form is the
exit token; every other line, empty lines and `quit` included, is passed to
the question-answering path. -/
theorem loopStep_exit_iff (line : List Char) :
    (loopStep line = LoopAction.exitLoop ↔ lowerLine line = exitToken) ∧
      (lowerLine line ≠ exitToken → loopStep line = LoopAction.ask line) := by
  unfold loopStep
  split
  · rename_i h
    exact ⟨⟨fun _ => h, fun _ => rfl⟩, fun hn => absurd h hn⟩
  · rename_i h
    exact ⟨⟨fun hc => absurd hc (by simp), fun hc => absurd hc h⟩, fun _ => rfl⟩

/-- Witness for claim C6: the line `quit` does not exit the loop and is
asked as a question. -/
theorem loopStep_exit_iff_witness :
    lowerLine ['q', 'u', 'i', 't'] ≠ exitToken ∧
      loopStep ['q', 'u', 'i', 't'] = LoopAction.ask ['q', 'u', 'i', 't'] :=
  ⟨by decide, (loopStep_exit_iff ['q', 'u', 'i', 't']).2 (by decide)⟩

theorem joinContext_contains (t : List Char) :
    ∀ ts : List (List Char), t ∈ ts → ∃ u v, joinContext ts = u ++ t ++ v := by
  intro ts
  induction ts with
  | nil => intro h; exact absurd h (List.not_mem_nil t)
  | cons x ts ih =>
    intro h
    rcases List.mem_cons.mp h with rfl | hmem
    · cases ts with
      | nil => exact ⟨[], [], by simp [joinContext]⟩
      | cons y ys =>
        exact ⟨[], blankSep ++ joinContext (y :: ys), by simp [joinContext]⟩
    · cases ts with
      | nil => exact absurd hmem (List.not_mem_nil t)
      | cons y ys =>
        obtain ⟨u, v, huv⟩ := ih hmem
        exact ⟨x ++ blankSep ++ u, v,
          by simp [joinContext, huv, List.append_assoc]⟩

/-- Claim C7: the prompt is the fixed template around the context, the
context is the retrieved chunk texts joined in retrieval order by the
blank-line separator, and every retrieved text appears untruncated in the
prompt: no length or token-budget check is applied before the call. -/
theorem askQuestionPrompt_template (retrieved : List (List Char))
    (q : List Char) :
    askQuestionPrompt retrieved q
        = promptHead ++ joinContext retrieved ++ promptMid ++ q ++ promptTail ∧
      ∀ t ∈ retrieved, ∃ u v, askQuestionPrompt retrieved q = u ++ t ++ v := by
  refine ⟨rfl, ?_⟩
  intro t ht
  obtain ⟨u, v, huv⟩ := joinContext_contains t retrieved ht
  refine ⟨promptHead ++ u, v ++ promptMid ++ q ++ promptTail, ?_⟩
  simp [askQuestionPrompt, huv, List.append_assoc]

/-- Witness for claim C7 on a concrete retrieval result of two chunks. -/
theorem askQuestionPrompt_template_witness :
    ['a', 'b'] ∈ [['a', 'b'], ['c']] ∧
      ∃ u v, askQuestionPrompt [['a', 'b'], ['c']] ['q'] = u ++ ['a', 'b'] ++ v :=
  ⟨by decide,
    (askQuestionPrompt_template [['a', 'b'], ['c']] ['q']).2 ['a', 'b'] (by decide)⟩

/-- Counterexample to claim C8: the notebook assigns the credential
environment variable before use; with the caller having set the variable to
`sk-caller`, the value subsequently read is the hard-coded empty
placeholder, not the caller's value. -/
theorem apiKey_overwritten_counterexample :
    getApiKey (assignApiKey { openaiApiKey := "sk-caller" }) ≠ "sk-caller" := by
  decide

/-- Claim C8 (amended): the program overwrites the credential environment
variable with the hard-coded empty placeholder before reading it, so the
credential used by the API calls is that placeholder, whatever value the
caller had set. -/
theorem apiKey_is_placeholder (env : Env) :
    getApiKey (assignApiKey env) = "" := rfl

/-- Claim C9: if the remote embedding call made by the retrieval, or the
remote chat-completion call, fails during a question turn, neither
`ask_question` nor the read loop catches the error: the turn's result is
exactly that error, with no retry. -/
theorem apiError_propagates
    (retrieve : List Char → Except String (List (List Char)))
    (complete : List Char → Except String (List Char)) (line : List Char)
    (e : String) (hline : lowerLine line ≠ exitToken)
    (herr : retrieve line = Except.error e ∨
      ∃ docs, retrieve line = Except.ok docs ∧
        complete (askQuestionPrompt docs line) = Except.error e) :
    askQuestion retrieve complete line = Except.error e ∧
      loopTurn retrieve complete line = Except.error e := by
  have hask : askQuestion retrieve complete line = Except.error e := by
    unfold askQuestion
    rcases herr with herr | ⟨docs, hdocs, hcomp⟩
    · rw [herr]
    · rw [hdocs]
      exact hcomp
  refine ⟨hask, ?_⟩
  unfold loopTurn loopStep
  rw [if_neg hline]
  simp [hask, Except.map]

/-- Witness for claim C9: a concrete failing remote embedding call during
retrieval, and a concrete failing completion call, each become the turn's
result. -/
theorem apiError_propagates_witness :
    lowerLine ['h', 'i'] ≠ exitToken ∧
      loopTurn (fun _ => Except.error "embedding failed")
          (fun _ => Except.ok []) ['h', 'i']
        = Except.error "embedding failed" ∧
      loopTurn (fun _ => Except.ok [['c']])
          (fun _ => Except.error "completion failed") ['h', 'i']
        = Except.error "completion failed" :=
  ⟨by decide,
    (apiError_propagates (fun _ => Except.error "embedding failed")
        (fun _ => Except.ok []) ['h', 'i'] "embedding failed" (by decide)
        (Or.inl rfl)).2,
    (apiError_propagates (fun _ => Except.ok [['c']])
        (fun _ => Except.error "completion failed") ['h', 'i']
        "completion failed" (by decide) (Or.inr ⟨[['c']], rfl, rfl⟩)).2⟩

/-- Claim C10: the rebuilt documents carry exactly each chunk's page text
and empty metadata: the loader's page-number and source metadata are
discarded before embedding, so no stored record can report its source
location. -/
theorem rebuildDocuments_drops_metadata (chunks : List LCDocument) :
    (rebuildDocuments chunks).map LCDocument.page_content
        = chunks.map LCDocument.page_content ∧
      ∀ d ∈ rebuildDocuments chunks, d.metadata = [] := by
  constructor
  · simp [rebuildDocuments, List.map_map, Function.comp]
  · intro d hd
    simp only [rebuildDocuments, List.mem_map] at hd
    obtain ⟨c, _, rfl⟩ := hd
    rfl

/-- Witness for claim C10 on a chunk carrying loader metadata. -/
theorem rebuildDocuments_drops_metadata_witness :
    ({ page_content := ['x'], metadata := [] } : LCDocument)
        ∈ rebuildDocuments
            [{ page_content := ['x'], metadata := [("page", "3")] }] ∧
      ({ page_content := ['x'], metadata := [] } : LCDocument).metadata = [] :=
  ⟨by decide,
    (rebuildDocuments_drops_metadata
        [{ page_content := ['x'], metadata := [("page", "3")] }]).2 _ (by decide)⟩
